import Mathlib

/-!
Verification of the mistletoe markdown renderer (`mistletoe/markdown_renderer.py`,
`mistletoe/span_token.py`) against its natural-language specification.

The Python code is shallowly embedded: strings are Lean `String`s (operated on
through their `List Char` data to keep every definition kernel-executable),
generators become eagerly-built lists, and the renderer's methods become
recursive functions.  Python's `\s` is modelled by its ASCII whitespace set,
and `casefold` by per-character lower-casing; all inputs of interest here are
ASCII, where both models agree with Python.
-/

namespace Mistletoe

/-! ## String helpers (modelling Python string primitives) -/

/-- ASCII whitespace, the characters matched by Python's `\s` on ASCII text. -/
def pyIsWsChar (c : Char) : Bool :=
  c = ' ' || c = '\t' || c = '\n' || c = '\r' || c = '\x0b' || c = '\x0c'

/-- Python `str.isspace()`: nonempty and all whitespace. -/
def pyIsspace (s : String) : Bool :=
  !s.data.isEmpty && s.data.all pyIsWsChar

/-- Python `s[:-1]`: drop the last character. -/
def pyDropLast (s : String) : String := ⟨s.data.dropLast⟩

/-- Python `s[1:-1]`: drop the first and last characters. -/
def pyDropFirstLast (s : String) : String := ⟨(s.data.drop 1).dropLast⟩

/-- `c * n` (a run of `n` copies of a character). -/
def repChar (c : Char) (n : Nat) : String := ⟨List.replicate n c⟩

/-- Python `re.split(r"\s+", s)` on character lists.  The flag records whether
the previous character belonged to a whitespace run (already flushed). -/
def splitWsAux : Bool → List Char → List Char → List (List Char)
  | _, [], acc => [acc.reverse]
  | prevWs, c :: cs, acc =>
    if pyIsWsChar c then
      if prevWs then splitWsAux true cs []
      else acc.reverse :: splitWsAux true cs []
    else splitWsAux false cs (c :: acc)

/-- Python `re.split(r"\s+", s)`: split on maximal whitespace runs, keeping the
(possibly empty) fragments before the first and after the last run. -/
def splitWs (s : String) : List String :=
  (splitWsAux false s.data []).map String.mk

/-- Python `s.split("\n")` on character lists. -/
def splitNlChars : List Char → List (List Char)
  | [] => [[]]
  | c :: cs =>
    if c = '\n' then [] :: splitNlChars cs
    else
      match splitNlChars cs with
      | [] => [[c]]
      | t :: ts => (c :: t) :: ts

/-- Python `s.split("\n")`. -/
def splitNl (s : String) : List String :=
  (splitNlChars s.data).map String.mk

/-- Python `"".join(line + "\n" for line in lines)`. -/
def joinNL : List String → String
  | [] => ""
  | l :: ls => l ++ "\n" ++ joinNL ls

/-- Python `sep.join(parts)`. -/
def joinSep (sep : String) : List String → String
  | [] => ""
  | [s] => s
  | s :: rest => s ++ sep ++ joinSep sep rest

/-- Python `"".join(parts)`. -/
def strConcat : List String → String
  | [] => ""
  | s :: rest => s ++ strConcat rest

/-- Substring test, Python's `needle in haystack` for strings. -/
def hasSubstringChars : List Char → List Char → Bool
  | n, [] => n.isEmpty
  | n, c :: t => n.isPrefixOf (c :: t) || hasSubstringChars n t

/-- Python `needle in haystack` for strings. -/
def pyInStr (needle hay : String) : Bool :=
  hasSubstringChars needle.data hay.data

/-- Python `str.casefold`, modelled as per-character lower-casing (they agree
on ASCII, which is all the autolink patterns admit around the letters that
matter here). -/
def pyCasefold (s : String) : String := ⟨s.data.map Char.toLower⟩

/-! ## The span token model

`SpanTok` mirrors the span token classes of `mistletoe/span_token.py`,
keeping exactly the fields the markdown renderer reads.  `dest_type` is kept
as a string, as in the source.  For `inlineCode`, `raw_content` is the match's
group 2 verbatim and `childContent` is the one-time stripped value stored into
the single `RawText` child by `InlineCode.__init__`.  For `autoLink`, the sole
`RawText` child holds the same string as `target` (so the renderer's
`token.children[0].content` is `target`). -/

inductive SpanTok where
  | rawText (content : String)
  | strong (delimiter : String) (children : List SpanTok)
  | emphasis (delimiter : String) (children : List SpanTok)
  | inlineCode (delimiter : String) (raw_content : String) (childContent : String)
  | strikethrough (children : List SpanTok)
  | image (src : String) (title : String) (dest_type : String) (label : String)
      (title_delimiter : String) (children : List SpanTok)
  | link (target : String) (title : String) (dest_type : String) (label : String)
      (title_delimiter : String) (children : List SpanTok)
  | autoLink (target : String) (mailto : Bool)
  | escapeSequence (escaped : String)
  | lineBreak (soft : Bool) (marker : String)
  | htmlSpan (content : String)
  | linkRefDef (label : String) (dest : String) (title : String) (dest_type : String)
      (title_delimiter : String)

/-- `InlineCode.__init__` (span_token.py): stores the raw content untouched and
computes the child `RawText` content by replacing newlines with spaces and then
stripping one leading and one trailing padding space, only when the content is
not pure whitespace and both paddings are present. -/
def stripCodePad (content : String) : String :=
  let c : String := ⟨content.data.map (fun ch => if ch = '\n' then ' ' else ch)⟩
  if !pyIsspace c && c.data.head? = some ' ' && c.data.getLast? = some ' ' then
    pyDropFirstLast c
  else c

/-- `InlineCode.__init__`: builds the token from the two regex groups. -/
def mkInlineCode (delimiter content : String) : SpanTok :=
  .inlineCode delimiter content (stripCodePad content)

/-- `AutoLink.__init__`: `mailto` is true iff the target contains `'@'` and the
case-folded target does not contain `'mailto'`. -/
def mkAutoLink (content : String) : SpanTok :=
  .autoLink content (content.data.contains '@' && !pyInStr "mailto" (pyCasefold content))

/-- The `mailto` flag of an autolink token (false on other tokens). -/
def mailtoFlag : SpanTok → Bool
  | .autoLink _ m => m
  | _ => false

/-! ## Particles -/

/-- `markdown_renderer.Particle`: an ephemeral rendering unit. -/
structure Particle where
  text : String
  token : SpanTok
  tag : Option String
  wordwrap : Bool

/-- `isinstance(particle.token, span_token.LineBreak) and not particle.token.soft`. -/
def isHardBreakTok : SpanTok → Bool
  | .lineBreak soft _ => !soft
  | _ => false

/-- The destination/label tail of `MarkdownRenderer.render_link_or_image`
after the description part (all of it child-free). -/
def linkDestTail (tok : SpanTok) (target dest_type title title_delimiter label : String) :
    List Particle :=
  if dest_type = "uri" || dest_type = "angle_uri" then
    [⟨"(", tok, none, false⟩,
     ⟨if dest_type = "angle_uri" then "<" ++ target ++ ">" else target, tok, some "dest_part", false⟩] ++
    (if title ≠ "" then
      [⟨" ", tok, none, true⟩,
       ⟨title_delimiter, tok, none, false⟩,
       ⟨title, tok, some "title", true⟩,
       ⟨if title_delimiter = "(" then ")" else title_delimiter, tok, none, false⟩]
     else []) ++
    [⟨")", tok, none, false⟩]
  else if dest_type = "full" then
    [⟨"[", tok, none, false⟩, ⟨label, tok, some "label", true⟩, ⟨"]", tok, none, false⟩]
  else if dest_type = "collapsed" then
    [⟨"[]", tok, none, false⟩]
  else []

/-- `MarkdownRenderer.render_link_reference_definition`. -/
def renderLinkRefDef (tok : SpanTok) (label dest title dest_type title_delimiter : String) :
    List Particle :=
  [⟨"[", tok, none, false⟩,
   ⟨label, tok, some "label", true⟩,
   ⟨"]: ", tok, none, true⟩,
   ⟨if dest_type = "angle_uri" then "<" ++ dest ++ ">" else dest, tok, none, false⟩] ++
  (if title ≠ "" then
    [⟨" ", tok, none, true⟩,
     ⟨title_delimiter, tok, none, false⟩,
     ⟨title, tok, none, true⟩,
     ⟨if title_delimiter = "(" then ")" else title_delimiter, tok, none, false⟩]
   else [])

mutual

/-- The markdown renderer's span dispatch: `render_raw_text`, `render_strong`,
`render_emphasis`, `render_inline_code`, `render_strikethrough`,
`render_image`, `render_link`, `render_auto_link`, `render_escape_sequence`,
`render_line_break`, `render_html_span`, `render_link_reference_definition`
from `mistletoe/markdown_renderer.py`, producing the particle stream. -/
def renderSpan : SpanTok → List Particle
  | .rawText c => [⟨c, .rawText c, none, true⟩]
  | .strong d ch =>
    ⟨d ++ d, .strong d ch, none, false⟩ ::
      (renderSpans ch ++ [⟨d ++ d, .strong d ch, none, false⟩])
  | .emphasis d ch =>
    ⟨d, .emphasis d ch, none, false⟩ ::
      (renderSpans ch ++ [⟨d, .emphasis d ch, none, false⟩])
  | .inlineCode d raw cc =>
    [⟨d, .inlineCode d raw cc, none, false⟩,
     ⟨raw, .inlineCode d raw cc, none, false⟩,
     ⟨d, .inlineCode d raw cc, none, false⟩]
  | .strikethrough ch =>
    ⟨"~~", .strikethrough ch, none, false⟩ ::
      (renderSpans ch ++ [⟨"~~", .strikethrough ch, none, false⟩])
  | .image src title dt lbl tdel ch =>
    (⟨"![", .image src title dt lbl tdel ch, none, false⟩ ::
      (renderSpans ch ++ [⟨"]", .image src title dt lbl tdel ch, none, false⟩])) ++
    linkDestTail (.image src title dt lbl tdel ch) src dt title tdel lbl
  | .link tgt title dt lbl tdel ch =>
    (⟨"[", .link tgt title dt lbl tdel ch, none, false⟩ ::
      (renderSpans ch ++ [⟨"]", .link tgt title dt lbl tdel ch, none, false⟩])) ++
    linkDestTail (.link tgt title dt lbl tdel ch) tgt dt title tdel lbl
  | .autoLink t m => [⟨"<" ++ t ++ ">", .autoLink t m, none, false⟩]
  | .escapeSequence e => [⟨"\\" ++ e, .escapeSequence e, none, false⟩]
  | .lineBreak soft marker => [⟨marker ++ "\n", .lineBreak soft marker, none, soft⟩]
  | .htmlSpan c => [⟨c, .htmlSpan c, none, false⟩]
  | .linkRefDef lbl dest title dt tdel =>
    renderLinkRefDef (.linkRefDef lbl dest title dt tdel) lbl dest title dt tdel

/-- Flattening a list of span tokens (`chain.from_iterable` in
`span_to_lines`, and the loop of `embed_span`). -/
def renderSpans : List SpanTok → List Particle
  | [] => []
  | t :: ts => renderSpan t ++ renderSpans ts

end

/-! ## `make_words` -/

/-- The inner loop of `make_words` over the non-first fragments of a
whitespace-split wordwrap particle: each fragment flushes the current word
(when nonempty) and becomes the new current word. -/
def emitItems : List String → String → List String × String
  | [], w => ([], w)
  | i :: is, w =>
    let rest := emitItems is i
    ((if w = "" then [] else [w]) ++ rest.1, rest.2)

/-- `MarkdownRenderer.make_words`, with the running word made explicit:
returns the words emitted and the final word accumulator. -/
def makeWordsCore : List Particle → String → List String × String
  | [], w => ([], w)
  | p :: ps, w =>
    if p.wordwrap then
      match splitWs p.text with
      | [] => makeWordsCore ps w
      | first :: rest =>
        let a := emitItems rest (w ++ first)
        let b := makeWordsCore ps a.2
        (a.1 ++ b.1, b.2)
    else if isHardBreakTok p.token then
      let b := makeWordsCore ps ""
      ((w ++ pyDropLast p.text) :: "\n" :: b.1, b.2)
    else makeWordsCore ps (w ++ p.text)

/-- `MarkdownRenderer.make_words`: the emitted words, including the final
word when nonempty. -/
def makeWords (ps : List Particle) (w : String) : List String :=
  let r := makeWordsCore ps w
  r.1 ++ (if r.2 = "" then [] else [r.2])

/-! ## `span_to_lines` -/

/-- The word-wrapping loop of `MarkdownRenderer.span_to_lines`: greedy
packing of words into lines of at most `maxLen` characters, with `"\n"`
acting as a hard flush.  `maxLen` is an `Int` because the renderer subtracts
container prefixes from it without clamping. -/
def wrapWords (maxLen : Int) : List String → String → List String
  | [], cur => if cur = "" then [] else [cur]
  | w :: ws, cur =>
    if w = "\n" then cur :: wrapWords maxLen ws ""
    else if cur = "" then wrapWords maxLen ws w
    else if ((cur ++ " " ++ w).length : Int) ≤ maxLen then
      wrapWords maxLen ws (cur ++ " " ++ w)
    else cur :: wrapWords maxLen ws w

/-- The plain-rendering loop of `MarkdownRenderer.span_to_lines` (no word
wrap): concatenate particle texts and split on newlines.  The source slices
`lines[1:-2]` of the split and resumes from `lines[-1]`, which this mirrors
exactly. -/
def plainLines : List Particle → String → List String
  | [], cur => if cur = "" then [] else [cur]
  | p :: ps, cur =>
    match splitNl p.text with
    | [] => plainLines ps cur
    | [s] => plainLines ps (cur ++ s)
    | first :: second :: more =>
      (cur ++ first) :: ((second :: more).dropLast.dropLast ++
        plainLines ps ((second :: more).getLast (by simp)))

/-- `MarkdownRenderer.span_to_lines`.  Python's `if not max_line_length`
treats both `None` and `0` as plain rendering. -/
def spanToLines (ts : List SpanTok) (maxLen : Option Int) : List String :=
  match maxLen with
  | none => plainLines (renderSpans ts) ""
  | some n =>
    if n = 0 then plainLines (renderSpans ts) ""
    else wrapWords n (makeWords (renderSpans ts) "") ""

/-! ## The block token model

`Block` mirrors the block tokens reached by the renderer's dispatch, keeping
the fields the renderer reads.  `blockCode`/`codeFence` keep
`children[0].content` as a plain string; a table row is a list of cells, each
a list of span tokens; `linkRefDefBlock` children are `linkRefDef` span
tokens; `blankLine` stores nothing, exactly like `BlankLine.__init__`, which
discards its argument. -/

inductive Block where
  | document (children : List Block)
  | paragraph (children : List SpanTok)
  | heading (level : Nat) (closing_sequence : String) (children : List SpanTok)
  | setextHeading (level : Nat) (underline_length : Nat) (children : List SpanTok)
  | quote (children : List Block)
  | blockCode (content : String)
  | codeFence (delimiter : String) (info_string : String) (indentation : Nat) (content : String)
  | list (children : List Block)
  | listItem (leader : String) (children : List Block)
  | table (header : List (List SpanTok)) (column_align : List (Option Int))
      (rows : List (List (List SpanTok)))
  | thematicBreak (line : String)
  | htmlBlock (content : String)
  | linkRefDefBlock (children : List SpanTok)
  | blankLine

/-- `BlankLine.start` (markdown_renderer.py): `re.match(r"\s*\n$", line)`,
i.e. the line is whitespace-only and ends with a newline. -/
def blankLineStart (line : String) : Bool :=
  pyIsspace line && line.data.getLast? = some '\n'

/-- `BlankLine.__init__(self, _)`: the consumed line is discarded. -/
def mkBlankLine (_line : String) : Block := Block.blankLine

/-- `MarkdownRenderer.prefix_lines`.  The first line gets
`first_line_prefix`, the rest get `following_line_prefix or
first_line_prefix`; a prefixed line that is entirely whitespace is replaced
by the empty string. -/
def normPrefixed (l : String) : String := if pyIsspace l then "" else l

/-- `following_line_prefix or first_line_prefix`. -/
def resolveFol (firstPre : String) : Option String → String
  | none => firstPre
  | some s => if s = "" then firstPre else s

/-- `MarkdownRenderer.prefix_lines`. -/
def prefixLines (lines : List String) (firstPre : String) (folPre : Option String) :
    List String :=
  match lines with
  | [] => []
  | l :: ls =>
    normPrefixed (firstPre ++ l) ::
      ls.map (fun x => normPrefixed (resolveFol firstPre folPre ++ x))

/-! ### Tables -/

/-- One step of `calculate_table_column_widths`: extend with the minimum
width 3 for new columns, then take the max with each cell's length. -/
def updateWidths : List Nat → List String → List Nat
  | ws, [] => ws
  | [], t :: ts => max 3 t.length :: updateWidths [] ts
  | w :: ws, t :: ts => max w t.length :: updateWidths ws ts

/-- `MarkdownRenderer.calculate_table_column_widths`. -/
def calcWidths (content : List (List String)) : List Nat :=
  content.foldl updateWidths []

/-- One separator cell: `:`/`-` according to the alignment, dashes padded to
the column width. -/
def sepCell (width : Nat) (align : Option Int) : String :=
  (if align = some 0 then ":" else "-") ++ repChar '-' (width - 2) ++
    (if align = some 0 || align = some 1 then ":" else "-")

/-- `MarkdownRenderer.table_separator_line_to_text` (missing alignments are
`None`). -/
def sepLine : List Nat → List (Option Int) → List String
  | [], _ => []
  | w :: ws, aligns => sepCell w (aligns.head?.join) :: sepLine ws aligns.tail

/-- One padded cell of `table_row_to_line`: left-justify for `None`, center
for `0`, right-justify otherwise. -/
def padCell (text : String) (align : Option Int) (width : Nat) : String :=
  match align with
  | none => text ++ repChar ' ' (width - text.length)
  | some a =>
    if a = 0 then
      let p := width - text.length
      repChar ' ' (p / 2) ++ text ++ repChar ' ' (p - p / 2)
    else repChar ' ' (width - text.length) ++ text

/-- The padded cells of `table_row_to_line` (missing cells are `""`, missing
alignments `None`). -/
def padCells : List Nat → List String → List (Option Int) → List String
  | [], _, _ => []
  | w :: ws, row, aligns =>
    padCell (row.head?.getD "") (aligns.head?.join) w :: padCells ws row.tail aligns.tail

/-- `MarkdownRenderer.table_row_to_line`. -/
def tableRowToLine (row : List String) (widths : List Nat) (aligns : List (Option Int)) :
    String :=
  "| " ++ joinSep " | " (padCells widths row aligns) ++ " |"

/-- `MarkdownRenderer.table_row_to_text`: the first plainly-rendered line of
each cell (or `""`). -/
def tableRowToText (row : List (List SpanTok)) : List String :=
  row.map (fun cell => (spanToLines cell none).headD "")

/-- The content matrix over which `render_table` computes column widths: the
header row, an empty placeholder for the separator, then the body rows. -/
def tableContent (header : List (List SpanTok)) (rows : List (List (List SpanTok)))
    : List (List String) :=
  tableRowToText header :: [] :: rows.map tableRowToText

/-- `MarkdownRenderer.render_table` (column widths are recomputed, the
original layout being discarded; `max_line_length` is ignored). -/
def renderTable (header : List (List SpanTok)) (aligns : List (Option Int))
    (rows : List (List (List SpanTok))) : List String :=
  let widths := calcWidths (tableContent header rows)
  (tableRowToText header :: sepLine widths aligns :: rows.map tableRowToText).map
    (fun r => tableRowToLine r widths aligns)

/-- `max_line_length - 2 if max_line_length else None` (for quotes). -/
def quoteChildLen : Option Int → Option Int
  | none => none
  | some n => if n = 0 then none else some (n - 2)

/-- `max_line_length - indentation if max_line_length else None` (for list
items). -/
def itemChildLen (ind : Nat) : Option Int → Option Int
  | none => none
  | some n => if n = 0 then none else some (n - ind)

mutual

/-- The markdown renderer's block dispatch (`render_document`,
`render_heading`, `render_setext_heading`, `render_quote`,
`render_paragraph`, `render_block_code`, `render_fenced_code_block`,
`render_list`, `render_list_item`, `render_table`, `render_thematic_break`,
`render_html_block`, `render_link_reference_definition_block`,
`render_blank_line` from `mistletoe/markdown_renderer.py`).  In
`render_quote` the `lines or [""]` fallback never fires because `lines` is a
(truthy) generator, so it is not modelled; in `render_list_item` the
`list(lines) or [""]` fallback does fire and is modelled. -/
def renderBlock : Block → Option Int → List String
  | .document ch, ml => renderBlocks ch ml
  | .paragraph ch, ml => spanToLines ch ml
  | .heading level closing ch, _ =>
    let text := (spanToLines ch none).headD ""
    [repChar '#' level ++ (if text ≠ "" then " " ++ text else "") ++
      (if closing ≠ "" then " " ++ closing else "")]
  | .setextHeading level ul ch, ml =>
    spanToLines ch ml ++ [repChar (if level = 1 then '=' else '-') ul]
  | .quote ch, ml =>
    prefixLines (renderBlocks ch (quoteChildLen ml)) "> " none
  | .blockCode content, _ =>
    prefixLines (splitNl (pyDropLast content)) "    " none
  | .codeFence delim info ind content, _ =>
    (repChar ' ' ind ++ delim ++ info) ::
      (prefixLines (splitNl (pyDropLast content)) (repChar ' ' ind) none ++
        [repChar ' ' ind ++ delim])
  | .list ch, ml => renderBlocks ch ml
  | .listItem leader ch, ml =>
    let ind := leader.length + 1
    let lines := renderBlocks ch (itemChildLen ind ml)
    prefixLines (if lines = [] then [""] else lines) (leader ++ " ")
      (some (repChar ' ' ind))
  | .table header aligns rows, _ => renderTable header aligns rows
  | .thematicBreak line, _ => [line]
  | .htmlBlock content, _ => splitNl content
  | .linkRefDefBlock ch, ml => renderLinkRefDefBlock ch ml
  | .blankLine, _ => [""]

/-- `MarkdownRenderer.blocks_to_lines`. -/
def renderBlocks : List Block → Option Int → List String
  | [], _ => []
  | b :: bs, ml => renderBlock b ml ++ renderBlocks bs ml

/-- `render_link_reference_definition_block`: each definition starts on a new
line. -/
def renderLinkRefDefBlock : List SpanTok → Option Int → List String
  | [], _ => []
  | c :: cs, ml => spanToLines [c] ml ++ renderLinkRefDefBlock cs ml

end

/-- The two kinds of token `MarkdownRenderer.render` accepts. -/
inductive Tok where
  | blockT (b : Block)
  | spanT (s : SpanTok)

/-- The lines produced by `MarkdownRenderer.render` for a token: block tokens
through the block dispatch, span tokens through `span_to_lines`. -/
def renderedLines (t : Tok) (maxLen : Option Int) : List String :=
  match t with
  | .blockT b => renderBlock b maxLen
  | .spanT s => spanToLines [s] maxLen

/-- `MarkdownRenderer.render`: join every rendered line with a trailing
newline. -/
def render (t : Tok) (maxLen : Option Int) : String :=
  joinNL (renderedLines t maxLen)

/-! ## A spec-modelled parser fragment (for the round-trip claim)

The repository's block tokenizer (`mistletoe/block_token.py`) and span
tokenizer driver are not under `src/`; only the renderer and the span token
classes are.  The fragment below is therefore modelled from the spec
(§4.2–§4.3): blank lines become `BlankLine` tokens, maximal runs of
non-blank lines become paragraphs whose children alternate `RawText` (one
per source line, without its terminating newline) with soft `LineBreak`
tokens (trailing marker `""`, since the fragment's lines carry no trailing
whitespace).  `simpleTextLine` restricts the fragment to lines the real
tokenizer would also treat as plain paragraph text: alphanumerics and
internal spaces only (so no block-start marker, no inline markup, no escape,
no hard-break marker), no leading or trailing space, terminated by a single
newline. -/

theorem appendEqEmptyIff {a b : String} : a ++ b = "" ↔ a = "" ∧ b = "" := by
  have h0 : ("" : String).data = [] := rfl
  rw [String.ext_iff, String.ext_iff, String.ext_iff, String.data_append, h0]
  exact List.append_eq_nil

theorem joinNLCases (ls : List String) : joinNL ls = "" ∨ ∃ u, joinNL ls = u ++ "\n" := by
  induction ls with
  | nil => exact Or.inl rfl
  | cons l ls ih =>
    right
    rcases ih with h | ⟨u, h⟩
    · exact ⟨l, by rw [joinNL, h, String.append_empty]⟩
    · exact ⟨l ++ "\n" ++ u, by rw [joinNL, h]; simp [String.append_assoc]⟩

theorem repCharLength (c : Char) (n : Nat) : (repChar c n).length = n := by
  show (List.replicate n c).length = n
  exact List.length_replicate n c

/-! ## Claim C10: `render` output is newline-joined lines -/

/-- C10: for every token and every `max_line_length` (including none), the
string returned by `MarkdownRenderer.render` is the concatenation of the
rendered lines, each suffixed with a single newline; hence the result is
either empty or ends with a newline. -/
theorem renderJoinsLinesWithNewlines (t : Tok) (maxLen : Option Int) :
    render t maxLen = joinNL (renderedLines t maxLen) ∧
      (render t maxLen = "" ∨ ∃ u, render t maxLen = u ++ "\n") :=
  ⟨rfl, joinNLCases _⟩

/-! ## Claim C9: the autolink `mailto` flag -/

/-- C9: for every `AutoLink`, the `mailto` flag is true iff the target
contains `'@'` and the case-folded target does not contain the substring
`"mailto"` anywhere; in particular a target containing `'@'` and the letters
`"mailto"` in any position has `mailto = false`. -/
theorem autolinkMailtoIff :
    (∀ t : String, mailtoFlag (mkAutoLink t) = true ↔
      (t.data.contains '@' = true ∧ pyInStr "mailto" (pyCasefold t) = false)) ∧
    (∀ t : String, t.data.contains '@' = true → pyInStr "mailto" (pyCasefold t) = true →
      mailtoFlag (mkAutoLink t) = false) := by
  constructor
  · intro t
    simp [mkAutoLink, mailtoFlag]
  · intro t h1 h2
    simp [mkAutoLink, mailtoFlag, h1, h2]

/-- Witness for C9 at a concrete target containing `'@'` and `"mailto"` in
the middle of the host name. -/
theorem autolinkMailtoIffWitness :
    "a@bmailtoc.com".data.contains '@' = true ∧
      pyInStr "mailto" (pyCasefold "a@bmailtoc.com") = true ∧
      mailtoFlag (mkAutoLink "a@bmailtoc.com") = false :=
  ⟨by decide, by decide, autolinkMailtoIff.2 "a@bmailtoc.com" (by decide) (by decide)⟩

/-! ## Claim C6: `BlankLine` does not round-trip its whitespace -/

/-- C6 counterexample: the whitespace-only line `" \n"` is accepted by
`BlankLine.start`, but parsing it to a `BlankLine` and rendering in
format-preserving mode yields `"\n"`, not the original line: the token holds
none of its source content. -/
theorem blankLineDropsContent :
    blankLineStart " \n" = true ∧
      render (Tok.blockT (mkBlankLine " \n")) none = "\n" ∧
      ("\n" : String) ≠ " \n" :=
  ⟨by decide, by decide, by decide⟩

/-- C6 amended: `BlankLine` stores none of the whitespace content of the
line it was parsed from, and both rendering modes emit every blank line as a
single empty line; so runs of blank lines round-trip in number, but not in
their internal whitespace. -/
theorem blankLineRendersEmptyLine (line : String) (maxLen : Option Int)
    (_h : blankLineStart line = true) :
    mkBlankLine line = Block.blankLine ∧
      render (Tok.blockT (mkBlankLine line)) maxLen = "\n" :=
  ⟨rfl, rfl⟩

/-- Witness for the amended C6 at the blank line `" \t\n"`. -/
theorem blankLineRendersEmptyLineWitness :
    blankLineStart " \t\n" = true ∧
      render (Tok.blockT (mkBlankLine " \t\n")) none = "\n" :=
  ⟨by decide, (blankLineRendersEmptyLine " \t\n" none (by decide)).2⟩

/-! ## Claim C5: inline code stripping vs. what the renderer reproduces -/

/-- C5 counterexample: for the inline code span `` ` x ` `` the one-time
stripped value is `"x"`, but the markdown renderer (used by both rendering
modes) reproduces the raw content `" x "` between the delimiters, not the
stripped value. -/
theorem inlineCodeRendersRawNotStripped :
    stripCodePad " x " = "x" ∧
      spanToLines [mkInlineCode "`" " x "] none = ["` x `"] ∧
      ("` x `" : String) ≠ "`" ++ stripCodePad " x " ++ "`" :=
  ⟨by decide, by decide, by decide⟩

/-- C5 amended: `InlineCode.__init__` computes the stripped value once into
the token's child while keeping `raw_content` untouched, and the renderer's
particle stream — shared by both rendering modes — reproduces the raw
content, not the stripped value, between the backtick delimiters. -/
theorem inlineCodeChildStrippedRawRendered (delimiter content : String) :
    mkInlineCode delimiter content
        = SpanTok.inlineCode delimiter content (stripCodePad content) ∧
      (renderSpan (mkInlineCode delimiter content)).map Particle.text
        = [delimiter, content, delimiter] :=
  ⟨rfl, rfl⟩

/-! ## Claim C8: container prefixes and blank interior lines -/

/-- C8 counterexample: a block quote with a blank interior line renders that
line as `"> "` (the prefix with its trailing space), not as an empty line,
because `"> "` is not whitespace-only. -/
theorem quoteBlankInteriorLineKeepsPrefix :
    renderBlock (Block.quote [Block.paragraph [SpanTok.rawText "a"], Block.blankLine,
        Block.paragraph [SpanTok.rawText "b"]]) none = ["> a", "> ", "> b"] ∧
      ("> " : String) ≠ "" :=
  ⟨by decide, by decide⟩

/-- C8 amended: `prefix_lines` gives every line its prefix exactly once (the
first line the first-line prefix, later lines the following-line prefix) and
normalizes a prefixed line to the empty string exactly when it is entirely
whitespace — which can happen for the all-space continuation prefix of a
list item, but never for the quote prefix `"> "`. -/
theorem prefixLinesNormalization :
    (∀ (lines : List String) (firstPre : String) (folPre : Option String) (i : Nat) (l : String),
      lines.get? i = some l →
      (prefixLines lines firstPre folPre).get? i =
        some (normPrefixed ((if i = 0 then firstPre else resolveFol firstPre folPre) ++ l))) ∧
    (∀ l : String, normPrefixed ("> " ++ l) = "> " ++ l) := by
  constructor
  · intro lines firstPre folPre i l h
    match lines, i, h with
    | l0 :: ls, 0, h =>
      simp only [List.get?_cons_zero, Option.some.injEq] at h
      subst h
      simp [prefixLines]
    | l0 :: ls, i + 1, h =>
      simp only [List.get?_cons_succ] at h
      have h' : ls[i]? = some l := by rw [← List.get?_eq_getElem?]; exact h
      simp [prefixLines, h']
  · intro l
    have h0 : ("> " : String).data = ['>', ' '] := rfl
    have h1 : ("> " ++ l).data = '>' :: ' ' :: l.data := by
      rw [String.data_append, h0]; rfl
    have h2 : pyIsWsChar '>' = false := by decide
    simp [normPrefixed, pyIsspace, h1, h2]

/-- Witness for the amended C8: a list-item continuation prefix over a blank
line is normalized away. -/
theorem prefixLinesNormalizationWitness :
    (["a", ""].get? 1 = some "") ∧
      (prefixLines ["a", ""] "- " (some "  ")).get? 1 =
        some (normPrefixed ((if 1 = 0 then "- " else resolveFol "- " (some "  ")) ++ "")) :=
  ⟨by decide, prefixLinesNormalization.1 ["a", ""] "- " (some "  ") 1 "" (by decide)⟩

/-! ## Claim C7: table column widths -/

/-- The length of cell `i` of a rendered row (0 when the row is shorter). -/
def cellLen : List String → Nat → Nat
  | [], _ => 0
  | s :: _, 0 => s.length
  | _ :: row, i + 1 => cellLen row i

/-- The length of the longest rendered cell text in column `i`. -/
def maxCellWidth (rowsText : List (List String)) (i : Nat) : Nat :=
  rowsText.foldr (fun r m => max (cellLen r i) m) 0

theorem updateWidthsGetD (row : List String) (ws : List Nat) (i : Nat) :
    (updateWidths ws row).getD i 3 = max (ws.getD i 3) (cellLen row i) := by
  induction row generalizing ws i with
  | nil => simp [updateWidths, cellLen]
  | cons t ts ih =>
    match ws, i with
    | [], 0 => simp [updateWidths, cellLen]
    | [], i + 1 =>
      simp only [updateWidths, cellLen, List.getD_cons_succ, List.getD_nil]
      rw [ih [] i]
      simp [List.getD_nil]
    | w :: ws, 0 => simp [updateWidths, cellLen]
    | w :: ws, i + 1 =>
      simp only [updateWidths, cellLen, List.getD_cons_succ]
      rw [ih ws i]

theorem calcWidthsFoldGetD (rows : List (List String)) (ws : List Nat) (i : Nat) :
    ((rows.foldl updateWidths ws).getD i 3) = max (ws.getD i 3) (maxCellWidth rows i) := by
  induction rows generalizing ws with
  | nil => simp [maxCellWidth]
  | cons r rows ih =>
    simp only [List.foldl_cons, maxCellWidth, List.foldr_cons]
    rw [ih, updateWidthsGetD]
    rw [Nat.max_assoc]
    rfl

/-- C7: in either rendering mode (`render_table` ignores
`max_line_length`), the column widths a table is rendered with equal
`max(3, longest rendered cell text in the column)`, regardless of the
source's column widths (which are not stored at all); and every padded cell
is rendered at exactly the computed column width (its length is
`max width textlength`). -/
theorem tableColumnWidths (header : List (List SpanTok)) (aligns : List (Option Int))
    (rows : List (List (List SpanTok))) (maxLen : Option Int) (i : Nat) :
    renderBlock (.table header aligns rows) maxLen
        = renderBlock (.table header aligns rows) none ∧
      (calcWidths (tableContent header rows)).getD i 3
        = max 3 (maxCellWidth (tableRowToText header :: rows.map tableRowToText) i) ∧
      (∀ (s : String) (a : Option Int) (w : Nat), (padCell s a w).length = max w s.length) := by
  refine ⟨rfl, ?_, ?_⟩
  · show ((tableContent header rows).foldl updateWidths []).getD i 3 = _
    rw [calcWidthsFoldGetD]
    simp only [List.getD_nil, tableContent, maxCellWidth, List.foldr_cons]
    have hnil : cellLen [] i = 0 := by simp [cellLen]
    rw [hnil]
    simp
  · intro s a w
    match a with
    | none =>
      show (s ++ repChar ' ' (w - s.length)).length = _
      rw [String.length_append, repCharLength]
      omega
    | some al =>
      by_cases h : al = 0
      · simp only [padCell, h, if_true, eq_self_iff_true]
        rw [String.length_append, String.length_append, repCharLength, repCharLength]
        omega
      · simp only [padCell, if_neg h]
        rw [String.length_append, repCharLength]
        omega

/-! ## Claim C1: the reflow width bound -/

theorem wrapWordsMemBound (N : Int) (ws : List String) :
    ∀ cur l, l ∈ wrapWords N ws cur →
      (l.length : Int) ≤ N ∨ l = "" ∨ l = cur ∨ l ∈ ws := by
  induction ws with
  | nil =>
    intro cur l h
    simp only [wrapWords] at h
    split at h
    · simp at h
    · simp only [List.mem_singleton] at h
      exact Or.inr (Or.inr (Or.inl h))
  | cons w ws ih =>
    intro cur l h
    simp only [wrapWords] at h
    by_cases h1 : w = "\n"
    · rw [if_pos h1] at h
      rcases List.mem_cons.mp h with rfl | h2
      · exact Or.inr (Or.inr (Or.inl rfl))
      · rcases ih "" l h2 with h3 | h3 | h3 | h3
        · exact Or.inl h3
        · exact Or.inr (Or.inl h3)
        · exact Or.inr (Or.inl h3)
        · exact Or.inr (Or.inr (Or.inr (List.mem_cons_of_mem _ h3)))
    · rw [if_neg h1] at h
      by_cases h2 : cur = ""
      · rw [if_pos h2] at h
        rcases ih w l h with h3 | h3 | h3 | h3
        · exact Or.inl h3
        · exact Or.inr (Or.inl h3)
        · exact Or.inr (Or.inr (Or.inr (h3 ▸ List.mem_cons_self _ _)))
        · exact Or.inr (Or.inr (Or.inr (List.mem_cons_of_mem _ h3)))
      · rw [if_neg h2] at h
        by_cases h3 : ((cur ++ " " ++ w).length : Int) ≤ N
        · rw [if_pos h3] at h
          rcases ih _ l h with h4 | h4 | h4 | h4
          · exact Or.inl h4
          · exact Or.inr (Or.inl h4)
          · exact Or.inl (h4 ▸ h3)
          · exact Or.inr (Or.inr (Or.inr (List.mem_cons_of_mem _ h4)))
        · rw [if_neg h3] at h
          rcases List.mem_cons.mp h with rfl | h4
          · exact Or.inr (Or.inr (Or.inl rfl))
          · rcases ih w l h4 with h5 | h5 | h5 | h5
            · exact Or.inl h5
            · exact Or.inr (Or.inl h5)
            · exact Or.inr (Or.inr (Or.inr (h5 ▸ List.mem_cons_self _ _)))
            · exact Or.inr (Or.inr (Or.inr (List.mem_cons_of_mem _ h5)))

/-- C1: in reflow mode with a positive `max_line_length = N`, every line
emitted by `span_to_lines` either has length at most `N` or is exactly one
word of `make_words`' output, placed alone on its line (the greedy packer
never appends to a line that already exceeds the budget, so only a single
atomic word can exceed it). -/
theorem reflowWidthBound (ts : List SpanTok) (N : Int) (hN : 0 < N) (l : String)
    (hl : l ∈ spanToLines ts (some N)) :
    (l.length : Int) ≤ N ∨ l ∈ makeWords (renderSpans ts) "" := by
  have hne : ¬(N = 0) := by omega
  simp only [spanToLines, if_neg hne] at hl
  have h0 : (("" : String).length : Int) ≤ N := by
    have : ("" : String).length = 0 := rfl
    rw [this]; omega
  rcases wrapWordsMemBound N _ "" l hl with h | h | h | h
  · exact Or.inl h
  · exact Or.inl (h ▸ h0)
  · exact Or.inl (h ▸ h0)
  · exact Or.inr h

/-- Witness for C1 on the paragraph `"ab cd"` with `N = 2`. -/
theorem reflowWidthBoundWitness :
    (0 : Int) < 2 ∧ "ab" ∈ spanToLines [SpanTok.rawText "ab cd"] (some 2) ∧
      ((("ab" : String).length : Int) ≤ 2 ∨
        "ab" ∈ makeWords (renderSpans [SpanTok.rawText "ab cd"]) "") :=
  ⟨by decide, by decide, reflowWidthBound [SpanTok.rawText "ab cd"] 2 (by decide) "ab" (by decide)⟩

/-! ## Claim C3: hard line breaks always flush -/

theorem renderSpansAppend (ts1 ts2 : List SpanTok) :
    renderSpans (ts1 ++ ts2) = renderSpans ts1 ++ renderSpans ts2 := by
  induction ts1 with
  | nil => simp [renderSpans]
  | cons t ts ih => simp [renderSpans, ih]

theorem pyDropLastNewline (marker : String) : pyDropLast (marker ++ "\n") = marker := by
  apply String.ext
  show ((marker ++ "\n").data).dropLast = marker.data
  rw [String.data_append]
  have h : ("\n" : String).data = ['\n'] := rfl
  rw [h]
  exact List.dropLast_concat

theorem makeWordsCoreAppend (A B : List Particle) (w : String) :
    makeWordsCore (A ++ B) w =
      ((makeWordsCore A w).1 ++ (makeWordsCore B (makeWordsCore A w).2).1,
        (makeWordsCore B (makeWordsCore A w).2).2) := by
  induction A generalizing w with
  | nil => simp [makeWordsCore]
  | cons p A ih =>
    simp only [List.cons_append, makeWordsCore]
    by_cases h1 : p.wordwrap
    · simp only [if_pos h1]
      cases hs : splitWs p.text with
      | nil => exact ih w
      | cons first rest => simp [ih, List.append_assoc]
    · simp only [if_neg h1]
      by_cases h2 : isHardBreakTok p.token
      · simp only [if_pos h2]
        simp [ih]
      · simp only [if_neg h2]
        exact ih _

theorem wrapWordsFlushSplit (N : Int) (u v : List String) :
    ∀ cur, wrapWords N (u ++ "\n" :: v) cur = wrapWords N (u ++ ["\n"]) cur ++ wrapWords N v "" := by
  induction u with
  | nil =>
    intro cur
    simp [wrapWords]
  | cons w u ih =>
    intro cur
    simp only [List.cons_append, wrapWords, List.append_eq]
    by_cases h1 : w = "\n"
    · simp [if_pos h1, ih]
    · rw [if_neg h1, if_neg h1]
      by_cases h2 : cur = ""
      · simp [if_pos h2, ih]
      · rw [if_neg h2, if_neg h2]
        rw [ih, ih]
        split <;> simp

theorem makeWordsHardBreakParts (A B : List Particle) (marker : String) :
    makeWords (A ++ ⟨marker ++ "\n", SpanTok.lineBreak false marker, none, false⟩ :: B) "" =
      ((makeWordsCore A "").1 ++ [(makeWordsCore A "").2 ++ marker]) ++ "\n" :: makeWords B "" ∧
    makeWords (A ++ [⟨marker ++ "\n", SpanTok.lineBreak false marker, none, false⟩]) "" =
      ((makeWordsCore A "").1 ++ [(makeWordsCore A "").2 ++ marker]) ++ ["\n"] := by
  constructor
  · rw [makeWords, makeWordsCoreAppend]
    simp only [makeWordsCore, isHardBreakTok]
    simp [makeWords, pyDropLastNewline]
  · rw [makeWords, makeWordsCoreAppend]
    simp only [makeWordsCore, isHardBreakTok]
    simp [pyDropLastNewline]

/-- C3: in reflow mode, a hard line break always forces the current line to
be flushed: the rendered lines of a span sequence containing a hard
`LineBreak` are exactly the lines of the part up to and including the break
followed by the lines of the part after it, so words on the two sides never
share an output line, regardless of `N`. -/
theorem hardBreakNeverMerged (N : Int) (hN : N ≠ 0) (marker : String)
    (ts1 ts2 : List SpanTok) :
    spanToLines (ts1 ++ SpanTok.lineBreak false marker :: ts2) (some N) =
      spanToLines (ts1 ++ [SpanTok.lineBreak false marker]) (some N) ++
        spanToLines ts2 (some N) := by
  simp only [spanToLines, if_neg hN]
  have e1 : renderSpans (ts1 ++ SpanTok.lineBreak false marker :: ts2)
      = renderSpans ts1 ++
          (⟨marker ++ "\n", SpanTok.lineBreak false marker, none, false⟩ :: renderSpans ts2) := by
    rw [renderSpansAppend]
    rfl
  have e2 : renderSpans (ts1 ++ [SpanTok.lineBreak false marker])
      = renderSpans ts1 ++
          [(⟨marker ++ "\n", SpanTok.lineBreak false marker, none, false⟩ : Particle)] := by
    rw [renderSpansAppend]
    rfl
  rw [e1, e2]
  obtain ⟨hparts1, hparts2⟩ := makeWordsHardBreakParts (renderSpans ts1) (renderSpans ts2) marker
  rw [hparts1, hparts2, wrapWordsFlushSplit]

/-- Witness for C3 at a concrete split paragraph. -/
theorem hardBreakNeverMergedWitness :
    (80 : Int) ≠ 0 ∧
      spanToLines [SpanTok.rawText "aa bb", SpanTok.lineBreak false "  ", SpanTok.rawText "cc"]
          (some 80) =
        spanToLines [SpanTok.rawText "aa bb", SpanTok.lineBreak false "  "] (some 80) ++
          spanToLines [SpanTok.rawText "cc"] (some 80) :=
  ⟨by decide,
    hardBreakNeverMerged 80 (by decide) "  " [SpanTok.rawText "aa bb"] [SpanTok.rawText "cc"]⟩

/-! ## Claim C2: the format-preserving round trip on the simple fragment -/

theorem takeWhileMem {p : α → Bool} {l : List α} {x : α} (h : x ∈ l.takeWhile p) : x ∈ l := by
  induction l with
  | nil => simp [List.takeWhile] at h
  | cons a l ih =>
    rw [List.takeWhile_cons] at h
    split at h
    · rcases List.mem_cons.mp h with rfl | h2
      · exact List.mem_cons_self _ _
      · exact List.mem_cons_of_mem _ (ih h2)
    · simp at h

/-- The concatenated text of a run of particles. -/
def concatTexts (ps : List Particle) : String := strConcat (ps.map Particle.text)

theorem strEqEmptyIff (s : String) : s = "" ↔ s.data = [] := String.ext_iff

theorem emitItemsPres (is : List String) (w : String) (hw : w ≠ "") :
    (∃ o ∈ (emitItems is w).1, w.data <+: o.data) ∨ (emitItems is w).2 = w := by
  cases is with
  | nil => exact Or.inr rfl
  | cons i is =>
    left
    refine ⟨w, ?_, List.prefix_refl _⟩
    simp [emitItems, if_neg hw]

theorem strPrefixAppend (w t : String) : w.data <+: (w ++ t).data := by
  rw [String.data_append]
  exact List.prefix_append _ _

theorem makeWordsCorePres (ps : List Particle) :
    ∀ w, w ≠ "" →
      (∃ o ∈ (makeWordsCore ps w).1, w.data <+: o.data) ∨
        w.data <+: (makeWordsCore ps w).2.data := by
  induction ps with
  | nil =>
    intro w _
    exact Or.inr (List.prefix_refl _)
  | cons p ps ih =>
    intro w hw
    by_cases h1 : p.wordwrap
    · cases hs : splitWs p.text with
      | nil =>
        simp only [makeWordsCore, if_pos h1, hs]
        exact ih w hw
      | cons first rest =>
        simp only [makeWordsCore, if_pos h1, hs]
        have hwf : w ++ first ≠ "" := fun hc => hw (appendEqEmptyIff.mp hc).1
        rcases emitItemsPres rest (w ++ first) hwf with ⟨o, ho, hpre⟩ | hacc
        · exact Or.inl ⟨o, List.mem_append_left _ ho,
            (strPrefixAppend w first).trans hpre⟩
        · have h2ne : (emitItems rest (w ++ first)).2 ≠ "" := by rw [hacc]; exact hwf
          have hwp : w.data <+: (emitItems rest (w ++ first)).2.data := by
            rw [hacc]; exact strPrefixAppend w first
          rcases ih (emitItems rest (w ++ first)).2 h2ne with ⟨o, ho, hpre⟩ | hpre
          · exact Or.inl ⟨o, List.mem_append_right _ ho, hwp.trans hpre⟩
          · exact Or.inr (hwp.trans hpre)
    · by_cases h2 : isHardBreakTok p.token
      · simp only [makeWordsCore, if_neg h1, if_pos h2]
        exact Or.inl ⟨w ++ pyDropLast p.text, List.mem_cons_self _ _, strPrefixAppend _ _⟩
      · simp only [makeWordsCore, if_neg h1, if_neg h2]
        rcases ih (w ++ p.text) (fun hc => hw (appendEqEmptyIff.mp hc).1)
            with ⟨o, ho, hpre⟩ | hpre
        · exact Or.inl ⟨o, ho, (strPrefixAppend w p.text).trans hpre⟩
        · exact Or.inr ((strPrefixAppend w p.text).trans hpre)

theorem makeWordsPres (ps : List Particle) (w : String) (hw : w ≠ "") :
    ∃ o ∈ makeWords ps w, w.data <+: o.data := by
  rcases makeWordsCorePres ps w hw with ⟨o, ho, hpre⟩ | hpre
  · exact ⟨o, List.mem_append_left _ ho, hpre⟩
  · refine ⟨(makeWordsCore ps w).2, ?_, hpre⟩
    have hne : (makeWordsCore ps w).2 ≠ "" := by
      intro hc
      have hd : (makeWordsCore ps w).2.data = [] := (strEqEmptyIff _).mp hc
      rw [hd] at hpre
      exact hw ((strEqEmptyIff w).mpr (List.prefix_nil.mp hpre))
    rw [makeWords, if_neg hne]
    exact List.mem_append_right _ (List.mem_singleton.mpr rfl)

theorem wrapWordsCurInfix (N : Int) (ws : List String) :
    ∀ cur, cur ≠ "" → ∃ l ∈ wrapWords N ws cur, cur.data <:+: l.data := by
  induction ws with
  | nil =>
    intro cur hcur
    refine ⟨cur, ?_, List.infix_refl _⟩
    simp [wrapWords, if_neg hcur]
  | cons w ws ih =>
    intro cur hcur
    by_cases h1 : w = "\n"
    · exact ⟨cur, by rw [wrapWords, if_pos h1]; exact List.mem_cons_self _ _,
        List.infix_refl _⟩
    · by_cases h3 : ((cur ++ " " ++ w).length : Int) ≤ N
      · have hcw : cur ++ " " ++ w ≠ "" := by
          intro hc
          exact hcur (appendEqEmptyIff.mp (appendEqEmptyIff.mp hc).1).1
        obtain ⟨l, hl, hinf⟩ := ih (cur ++ " " ++ w) hcw
        refine ⟨l, ?_, ?_⟩
        · rw [wrapWords, if_neg h1, if_neg hcur, if_pos h3]
          exact hl
        · exact (((strPrefixAppend cur " ").trans
            (strPrefixAppend (cur ++ " ") w)).isInfix).trans hinf
      · refine ⟨cur, ?_, List.infix_refl _⟩
        rw [wrapWords, if_neg h1, if_neg hcur, if_neg h3]
        exact List.mem_cons_self _ _

theorem wrapWordsWordInfix (N : Int) (ws : List String) :
    ∀ cur w, w ∈ ws → w ≠ "\n" → w ≠ "" →
      ∃ l ∈ wrapWords N ws cur, w.data <:+: l.data := by
  induction ws with
  | nil =>
    intro _ w hmem
    exact absurd hmem (List.not_mem_nil w)
  | cons w0 ws ih =>
    intro cur w hmem hnl hne
    rcases List.mem_cons.mp hmem with rfl | hmem2
    · -- the word is the head of the stream
      simp only [wrapWords, if_neg hnl]
      by_cases h2 : cur = ""
      · rw [if_pos h2]
        obtain ⟨l, hl, hinf⟩ := wrapWordsCurInfix N ws w hne
        exact ⟨l, hl, hinf⟩
      · rw [if_neg h2]
        by_cases h3 : ((cur ++ " " ++ w).length : Int) ≤ N
        · rw [if_pos h3]
          have hcw : cur ++ " " ++ w ≠ "" := by
            intro hc
            exact hne (appendEqEmptyIff.mp hc).2
          obtain ⟨l, hl, hinf⟩ := wrapWordsCurInfix N ws (cur ++ " " ++ w) hcw
          refine ⟨l, hl, List.IsInfix.trans ?_ hinf⟩
          refine List.IsSuffix.isInfix ?_
          rw [String.data_append]
          exact List.suffix_append _ _
        · rw [if_neg h3]
          obtain ⟨l, hl, hinf⟩ := wrapWordsCurInfix N ws w hne
          exact ⟨l, List.mem_cons_of_mem _ hl, hinf⟩
    · -- the word is further along: all branches recurse
      simp only [wrapWords]
      by_cases h1 : w0 = "\n"
      · rw [if_pos h1]
        obtain ⟨l, hl, hinf⟩ := ih "" w hmem2 hnl hne
        exact ⟨l, List.mem_cons_of_mem _ hl, hinf⟩
      · rw [if_neg h1]
        by_cases h2 : cur = ""
        · rw [if_pos h2]
          exact ih w0 w hmem2 hnl hne
        · rw [if_neg h2]
          by_cases h3 : ((cur ++ " " ++ w0).length : Int) ≤ N
          · rw [if_pos h3]
            exact ih (cur ++ " " ++ w0) w hmem2 hnl hne
          · rw [if_neg h3]
            obtain ⟨l, hl, hinf⟩ := ih w0 w hmem2 hnl hne
            exact ⟨l, List.mem_cons_of_mem _ hl, hinf⟩

theorem infixOfSingleton {c : Char} {l : List Char} (h : l <:+: [c]) :
    l = [] ∨ l = [c] := by
  obtain ⟨s, t, hst⟩ := h
  cases s with
  | nil =>
    cases l with
    | nil => exact Or.inl rfl
    | cons x l' =>
      simp only [List.nil_append, List.cons_append, List.cons.injEq] at hst
      obtain ⟨rfl, h2⟩ := hst
      obtain ⟨rfl, rfl⟩ := List.append_eq_nil.mp h2
      exact Or.inr rfl
  | cons a s' =>
    simp only [List.cons_append, List.cons.injEq] at hst
    obtain ⟨rfl, h2⟩ := hst
    obtain ⟨h3, -⟩ := List.append_eq_nil.mp h2
    obtain ⟨-, rfl⟩ := List.append_eq_nil.mp h3
    exact Or.inl rfl

theorem makeWordsCoreRun (run : List Particle) :
    ∀ w, (∀ p ∈ run, p.wordwrap = false) → (∀ p ∈ run, isHardBreakTok p.token = false) →
      makeWordsCore run w = ([], w ++ concatTexts run) := by
  induction run with
  | nil =>
    intro w _ _
    simp [makeWordsCore, concatTexts, strConcat, String.append_empty]
  | cons p run ih =>
    intro w hww hhb
    have h1 := hww p (List.mem_cons_self _ _)
    have h2 := hhb p (List.mem_cons_self _ _)
    simp only [makeWordsCore, h1, h2, Bool.false_eq_true, if_false]
    rw [ih (w ++ p.text) (fun q hq => hww q (List.mem_cons_of_mem _ hq))
        (fun q hq => hhb q (List.mem_cons_of_mem _ hq))]
    simp [concatTexts, strConcat, String.append_assoc]

/-- Any run of adjacent non-wrap-eligible, non-hard-break particles ends up,
with its texts concatenated, inside a single line of the word-wrapped
output. -/
theorem atomicRunInfix (N : Int) (P A run B : List Particle)
    (hP : P = A ++ run ++ B)
    (hww : ∀ p ∈ run, p.wordwrap = false)
    (hhb : ∀ p ∈ run, isHardBreakTok p.token = false)
    (hT1 : concatTexts run ≠ "")
    (hT2 : concatTexts run ≠ "\n") :
    ∃ l ∈ wrapWords N (makeWords P "") "", (concatTexts run).data <:+: l.data := by
  subst hP
  have hrun := makeWordsCoreRun run (makeWordsCore A "").2 hww hhb
  have hsplit : makeWords (A ++ run ++ B) "" =
      (makeWordsCore A "").1 ++ makeWords B ((makeWordsCore A "").2 ++ concatTexts run) := by
    rw [List.append_assoc, makeWords, makeWordsCoreAppend A (run ++ B),
      makeWordsCoreAppend run B, hrun]
    simp [makeWords, List.append_assoc]
  have hwne : (makeWordsCore A "").2 ++ concatTexts run ≠ "" :=
    fun hc => hT1 (appendEqEmptyIff.mp hc).2
  obtain ⟨o, ho, hpre⟩ := makeWordsPres B ((makeWordsCore A "").2 ++ concatTexts run) hwne
  have hoin : o ∈ makeWords (A ++ run ++ B) "" := by
    rw [hsplit]
    exact List.mem_append_right _ ho
  have hTo : (concatTexts run).data <:+: o.data := by
    refine List.IsInfix.trans ?_ hpre.isInfix
    refine List.IsSuffix.isInfix ?_
    rw [String.data_append]
    exact List.suffix_append _ _
  have hone : o ≠ "" := by
    intro hc
    have hd : o.data = [] := (strEqEmptyIff _).mp hc
    rw [hd] at hpre
    exact hwne ((strEqEmptyIff _).mpr (List.prefix_nil.mp hpre))
  have honl : o ≠ "\n" := by
    intro hc
    have hd : o.data = ['\n'] := congrArg String.data hc
    rw [hd] at hTo
    rcases infixOfSingleton hTo with h | h
    · exact hT1 ((strEqEmptyIff _).mpr h)
    · exact hT2 (String.ext h)
  obtain ⟨l, hl, hinf⟩ := wrapWordsWordInfix N (makeWords (A ++ run ++ B) "") "" o hoin honl hone
  exact ⟨l, hl, hTo.trans hinf⟩

theorem renderSpansSplit (ts1 ts2 : List SpanTok) (t : SpanTok) :
    renderSpans (ts1 ++ t :: ts2) = renderSpans ts1 ++ renderSpan t ++ renderSpans ts2 := by
  rw [renderSpansAppend]
  rw [show renderSpans (t :: ts2) = renderSpan t ++ renderSpans ts2 from rfl]
  exact (List.append_assoc _ _ _).symm

/-- The destination particle of a link or image is glued to the `"("`
particle just before it, and the glued pair lands inside a single wrapped
line. -/
theorem linkDestRunInfix (N : Int) (P A B : List Particle) (tok : SpanTok)
    (destText : String) (htok : isHardBreakTok tok = false)
    (hP : P = A ++ [⟨"(", tok, none, false⟩, ⟨destText, tok, some "dest_part", false⟩] ++ B) :
    ∃ l ∈ wrapWords N (makeWords P "") "", destText.data <:+: l.data := by
  have hct : concatTexts [(⟨"(", tok, none, false⟩ : Particle),
      ⟨destText, tok, some "dest_part", false⟩] = "(" ++ destText := by
    simp [concatTexts, strConcat, String.append_empty]
  have hT1 : concatTexts [(⟨"(", tok, none, false⟩ : Particle),
      ⟨destText, tok, some "dest_part", false⟩] ≠ "" := by
    rw [hct]
    intro hc
    exact absurd (appendEqEmptyIff.mp hc).1 (by decide)
  have hT2 : concatTexts [(⟨"(", tok, none, false⟩ : Particle),
      ⟨destText, tok, some "dest_part", false⟩] ≠ "\n" := by
    rw [hct]
    intro hc
    have hd2 : '(' :: destText.data = ['\n'] := by
      have := congrArg String.data hc
      rw [String.data_append] at this
      exact this
    simp at hd2
  obtain ⟨l, hl, hinf⟩ := atomicRunInfix N P A _ B hP
    (by intro p hp; simp only [List.mem_cons, List.not_mem_nil, or_false] at hp;
        rcases hp with rfl | rfl <;> rfl)
    (by intro p hp; simp only [List.mem_cons, List.not_mem_nil, or_false] at hp;
        rcases hp with rfl | rfl <;> exact htok)
    hT1 hT2
  rw [hct] at hinf
  refine ⟨l, hl, List.IsInfix.trans ?_ hinf⟩
  refine List.IsSuffix.isInfix ?_
  rw [String.data_append]
  exact List.suffix_append _ _

/-- C4: in reflow mode, the text of particles not marked wrap-eligible —
inline code content (with its delimiters), raw HTML spans, and link/image
destinations — appears contiguously within a single output line of
`span_to_lines`; it is never split across two reflowed lines.  The
hypotheses `d ≠ ""`, `c ≠ ""`, `c ≠ "\n"` hold for every parsed token: an
inline code delimiter is a nonempty backtick run and an HTML span starts
with `'<'`. -/
theorem atomicInlineUnitsNeverSplit (N : Int) (hN : N ≠ 0) (ts1 ts2 : List SpanTok) :
    (∀ d raw cc : String, d ≠ "" →
      ∃ l ∈ spanToLines (ts1 ++ SpanTok.inlineCode d raw cc :: ts2) (some N),
        (d ++ raw ++ d).data <:+: l.data) ∧
    (∀ c : String, c ≠ "" → c ≠ "\n" →
      ∃ l ∈ spanToLines (ts1 ++ SpanTok.htmlSpan c :: ts2) (some N),
        c.data <:+: l.data) ∧
    (∀ (tgt title lbl tdel : String) (ch : List SpanTok),
      ∃ l ∈ spanToLines (ts1 ++ SpanTok.link tgt title "uri" lbl tdel ch :: ts2) (some N),
        tgt.data <:+: l.data) ∧
    (∀ (tgt title lbl tdel : String) (ch : List SpanTok),
      ∃ l ∈ spanToLines (ts1 ++ SpanTok.link tgt title "angle_uri" lbl tdel ch :: ts2) (some N),
        ("<" ++ tgt ++ ">").data <:+: l.data) ∧
    (∀ (src title lbl tdel : String) (ch : List SpanTok),
      ∃ l ∈ spanToLines (ts1 ++ SpanTok.image src title "uri" lbl tdel ch :: ts2) (some N),
        src.data <:+: l.data) := by
  refine ⟨?_, ?_, ?_, ?_, ?_⟩
  · -- inline code spans, delimiters included
    intro d raw cc hd
    simp only [spanToLines, if_neg hN]
    have hct : concatTexts (renderSpan (SpanTok.inlineCode d raw cc)) = d ++ raw ++ d := by
      simp [concatTexts, renderSpan, strConcat, String.append_empty, String.append_assoc]
    have hdlen : d.length ≠ 0 := by
      intro h0
      exact hd ((strEqEmptyIff d).mpr (List.length_eq_zero.mp h0))
    have hT1 : concatTexts (renderSpan (SpanTok.inlineCode d raw cc)) ≠ "" := by
      rw [hct]
      intro hc
      exact hd (appendEqEmptyIff.mp (appendEqEmptyIff.mp hc).1).1
    have hT2 : concatTexts (renderSpan (SpanTok.inlineCode d raw cc)) ≠ "\n" := by
      rw [hct]
      intro hc
      have hlen := congrArg String.length hc
      rw [String.length_append, String.length_append] at hlen
      have h1 : ("\n" : String).length = 1 := rfl
      rw [h1] at hlen
      omega
    obtain ⟨l, hl, hinf⟩ := atomicRunInfix N _ (renderSpans ts1)
      (renderSpan (SpanTok.inlineCode d raw cc)) (renderSpans ts2)
      (renderSpansSplit ts1 ts2 _)
      (by intro p hp
          simp only [renderSpan, List.mem_cons, List.not_mem_nil, or_false] at hp
          rcases hp with rfl | rfl | rfl <;> rfl)
      (by intro p hp
          simp only [renderSpan, List.mem_cons, List.not_mem_nil, or_false] at hp
          rcases hp with rfl | rfl | rfl <;> rfl)
      hT1 hT2
    rw [hct] at hinf
    exact ⟨l, hl, hinf⟩
  · -- raw HTML spans
    intro c hc1 hc2
    simp only [spanToLines, if_neg hN]
    have hct : concatTexts (renderSpan (SpanTok.htmlSpan c)) = c := by
      simp [concatTexts, renderSpan, strConcat, String.append_empty]
    obtain ⟨l, hl, hinf⟩ := atomicRunInfix N _ (renderSpans ts1)
      (renderSpan (SpanTok.htmlSpan c)) (renderSpans ts2)
      (renderSpansSplit ts1 ts2 _)
      (by intro p hp
          simp only [renderSpan, List.mem_cons, List.not_mem_nil, or_false] at hp
          subst hp; rfl)
      (by intro p hp
          simp only [renderSpan, List.mem_cons, List.not_mem_nil, or_false] at hp
          subst hp; rfl)
      (by rw [hct]; exact hc1) (by rw [hct]; exact hc2)
    rw [hct] at hinf
    exact ⟨l, hl, hinf⟩
  · -- link destinations (plain uri)
    intro tgt title lbl tdel ch
    simp only [spanToLines, if_neg hN]
    refine linkDestRunInfix N _
      (renderSpans ts1 ++
        (⟨"[", SpanTok.link tgt title "uri" lbl tdel ch, none, false⟩ ::
          (renderSpans ch ++ [⟨"]", SpanTok.link tgt title "uri" lbl tdel ch, none, false⟩])))
      ((if title ≠ "" then
          [⟨" ", SpanTok.link tgt title "uri" lbl tdel ch, none, true⟩,
           ⟨tdel, SpanTok.link tgt title "uri" lbl tdel ch, none, false⟩,
           ⟨title, SpanTok.link tgt title "uri" lbl tdel ch, some "title", true⟩,
           ⟨if tdel = "(" then ")" else tdel, SpanTok.link tgt title "uri" lbl tdel ch, none,
             false⟩]
        else []) ++
        ([⟨")", SpanTok.link tgt title "uri" lbl tdel ch, none, false⟩] ++ renderSpans ts2))
      (SpanTok.link tgt title "uri" lbl tdel ch) tgt rfl ?_
    rw [renderSpansSplit]
    simp [renderSpan, linkDestTail, List.append_assoc]
  · -- link destinations (angle-bracketed uri)
    intro tgt title lbl tdel ch
    simp only [spanToLines, if_neg hN]
    refine linkDestRunInfix N _
      (renderSpans ts1 ++
        (⟨"[", SpanTok.link tgt title "angle_uri" lbl tdel ch, none, false⟩ ::
          (renderSpans ch ++
            [⟨"]", SpanTok.link tgt title "angle_uri" lbl tdel ch, none, false⟩])))
      ((if title ≠ "" then
          [⟨" ", SpanTok.link tgt title "angle_uri" lbl tdel ch, none, true⟩,
           ⟨tdel, SpanTok.link tgt title "angle_uri" lbl tdel ch, none, false⟩,
           ⟨title, SpanTok.link tgt title "angle_uri" lbl tdel ch, some "title", true⟩,
           ⟨if tdel = "(" then ")" else tdel, SpanTok.link tgt title "angle_uri" lbl tdel ch,
             none, false⟩]
        else []) ++
        ([⟨")", SpanTok.link tgt title "angle_uri" lbl tdel ch, none, false⟩] ++
          renderSpans ts2))
      (SpanTok.link tgt title "angle_uri" lbl tdel ch) ("<" ++ tgt ++ ">") rfl ?_
    rw [renderSpansSplit]
    simp [renderSpan, linkDestTail, List.append_assoc]
  · -- image destinations (plain uri)
    intro src title lbl tdel ch
    simp only [spanToLines, if_neg hN]
    refine linkDestRunInfix N _
      (renderSpans ts1 ++
        (⟨"![", SpanTok.image src title "uri" lbl tdel ch, none, false⟩ ::
          (renderSpans ch ++ [⟨"]", SpanTok.image src title "uri" lbl tdel ch, none, false⟩])))
      ((if title ≠ "" then
          [⟨" ", SpanTok.image src title "uri" lbl tdel ch, none, true⟩,
           ⟨tdel, SpanTok.image src title "uri" lbl tdel ch, none, false⟩,
           ⟨title, SpanTok.image src title "uri" lbl tdel ch, some "title", true⟩,
           ⟨if tdel = "(" then ")" else tdel, SpanTok.image src title "uri" lbl tdel ch, none,
             false⟩]
        else []) ++
        ([⟨")", SpanTok.image src title "uri" lbl tdel ch, none, false⟩] ++ renderSpans ts2))
      (SpanTok.image src title "uri" lbl tdel ch) src rfl ?_
    rw [renderSpansSplit]
    simp [renderSpan, linkDestTail, List.append_assoc]

/-- Witness for C4: an inline code span wider than the budget stays inside a
single line. -/
theorem atomicInlineUnitsNeverSplitWitness :
    (1 : Int) ≠ 0 ∧ ("`" : String) ≠ "" ∧
      ∃ l ∈ spanToLines ([] ++ SpanTok.inlineCode "`" "a b" "a b" :: []) (some 1),
        ("`" ++ "a b" ++ "`").data <:+: l.data :=
  ⟨by decide, by decide,
    (atomicInlineUnitsNeverSplit 1 (by decide) [] []).1 "`" "a b" "a b" (by decide)⟩

end Mistletoe
